import Mathlib

/-
  Verification development for the Mediafire download orchestrator
  (src/mediafire.py).  Python code is shallowly embedded: byte streams are
  lists of naturals, the SHA-256 primitive from hashlib is an abstract
  parameter, the Unicode test str.isalnum is an abstract Boolean predicate
  on characters, and the remote server is a function from chunk indices to
  raw (possibly malformed) pages.
-/

namespace MediafireSpec

/- ## Name Normalizer (mediafire.py lines 11-13 and 24-32)

   self.NON_ALPHANUM_FILE_OR_FOLDER_NAME_CHARACTERS is the Python string
   made of hyphen, underscore, period, space; membership of a single
   character in that string is character membership, so it is embedded as
   a list of characters. -/

def NON_ALPHANUM_FILE_OR_FOLDER_NAME_CHARACTERS : List Char :=
  [ '-', '_', '.', ' ' ]

def NON_ALPHANUM_FILE_OR_FOLDER_NAME_CHARACTER_REPLACEMENT : Char := '-'

/-- The per-character action of the list comprehension at lines 25-31. -/
def normalize_char (isalnum : Char → Bool) (char : Char) : Char :=
  if isalnum char || NON_ALPHANUM_FILE_OR_FOLDER_NAME_CHARACTERS.contains char
  then char
  else NON_ALPHANUM_FILE_OR_FOLDER_NAME_CHARACTER_REPLACEMENT

/-- Lines 24-32: the empty-separator join of the one-character strings
    produced by the comprehension.  The Unicode predicate char.isalnum is
    the abstract parameter isalnum. -/
def normalize_file_or_folder_name (isalnum : Char → Bool) (filename : String) : String :=
  String.join
    (filename.data.map (fun char => String.singleton (normalize_char isalnum char)))

lemma join_data (L : List String) :
    (String.join L).data = (L.map String.data).flatten := by
  have h : ∀ (L : List String) (acc : String),
      (L.foldl (fun r s => r ++ s) acc).data = acc.data ++ (L.map String.data).flatten := by
    intro L
    induction L with
    | nil => intro acc; simp
    | cons s L ih =>
        intro acc
        simp [List.foldl_cons, ih, List.append_assoc]
  simpa using h L ""

lemma singleton_data (c : Char) : (String.singleton c).data = [ c ] := rfl

lemma flatten_map_single {α β : Type} (f : α → β) :
    ∀ l : List α, (l.map (fun a => [ f a ])).flatten = l.map f := by
  intro l
  induction l with
  | nil => rfl
  | cons a l ih => simp [ih]

lemma normalize_data (isalnum : Char → Bool) (s : String) :
    (normalize_file_or_folder_name isalnum s).data =
      s.data.map (normalize_char isalnum) := by
  rw [normalize_file_or_folder_name, join_data, List.map_map]
  have hcomp : (String.data ∘ fun char => String.singleton (normalize_char isalnum char)) =
      fun char => [ normalize_char isalnum char ] := by
    funext char
    simp [Function.comp, singleton_data]
  rw [hcomp, flatten_map_single]

lemma normalize_char_idem (isalnum : Char → Bool) (c : Char) :
    normalize_char isalnum (normalize_char isalnum c) = normalize_char isalnum c := by
  have hr : NON_ALPHANUM_FILE_OR_FOLDER_NAME_CHARACTERS.contains
      NON_ALPHANUM_FILE_OR_FOLDER_NAME_CHARACTER_REPLACEMENT = true := by decide
  by_cases h : (isalnum c || NON_ALPHANUM_FILE_OR_FOLDER_NAME_CHARACTERS.contains c) = true
  · have hin : normalize_char isalnum c = c := by
      rw [normalize_char, if_pos h]
    rw [hin]
    exact hin
  · have hin : normalize_char isalnum c =
        NON_ALPHANUM_FILE_OR_FOLDER_NAME_CHARACTER_REPLACEMENT := by
      rw [normalize_char, if_neg h]
    rw [hin, normalize_char, hr, Bool.or_true, if_pos rfl]

/- ## Integrity Verifier (mediafire.py lines 15-22)

   hash_file opens the file, repeatedly reads 1024-byte chunks and feeds
   each read (including the final empty read that ends the loop) to the
   incremental hasher, then returns the hex digest.  The hasher is
   embedded by its hashlib contract: the digest is the abstract sha256
   function applied to the concatenation of all updates. -/

structure Hasher where
  acc : List Nat
deriving DecidableEq, Repr

def Hasher.update (h : Hasher) (chunk : List Nat) : Hasher :=
  Hasher.mk (h.acc ++ chunk)

def Hasher.hexdigest (sha256 : List Nat → String) (h : Hasher) : String :=
  sha256 h.acc

/-- The sequence of chunks returned by the read calls of the while loop at
    lines 18-21, fuel-indexed so that the definition is structural.  A
    nonempty remainder yields a 1024-byte read; the final read on an empty
    remainder returns the empty chunk that ends the loop. -/
def chunkReads : Nat → List Nat → List (List Nat)
  | 0, _ => []
  | fuel + 1, content =>
      if content = [] then [ [] ]
      else content.take 1024 :: chunkReads fuel (content.drop 1024)

def hash_file_chunks (content : List Nat) : List (List Nat) :=
  chunkReads (content.length + 1) content

/-- Lines 15-22: fold every read into the hasher, then take the digest. -/
def hash_file (sha256 : List Nat → String) (content : List Nat) : String :=
  Hasher.hexdigest sha256 ((hash_file_chunks content).foldl Hasher.update (Hasher.mk []))

lemma chunkReads_join :
    ∀ (fuel : Nat) (content : List Nat), content.length < fuel →
      (chunkReads fuel content).flatten = content := by
  intro fuel
  induction fuel with
  | zero => intro content h; omega
  | succ n ih =>
      intro content h
      by_cases hc : content = []
      · simp [chunkReads, hc]
      · have hlen : 0 < content.length := List.length_pos.mpr hc
        have hdrop : (content.drop 1024).length < n := by
          simp [List.length_drop]; omega
        simp [chunkReads, hc, ih _ hdrop]

lemma chunkReads_size :
    ∀ (fuel : Nat) (content : List Nat) (c : List Nat),
      c ∈ chunkReads fuel content → c.length ≤ 1024 := by
  intro fuel
  induction fuel with
  | zero => intro content c h; simp [chunkReads] at h
  | succ n ih =>
      intro content c h
      by_cases hc : content = []
      · simp [chunkReads, hc] at h
        simp [h]
      · simp [chunkReads, hc] at h
        rcases h with h | h
        · simp [h, List.length_take]
        · exact ih _ _ h

lemma chunkReads_count :
    ∀ (fuel : Nat) (content : List Nat), content.length < fuel →
      (chunkReads fuel content).length ≤ content.length + 1 := by
  intro fuel
  induction fuel with
  | zero => intro content h; omega
  | succ n ih =>
      intro content h
      by_cases hc : content = []
      · simp [chunkReads, hc]
      · have hlen : 0 < content.length := List.length_pos.mpr hc
        have hdrop : (content.drop 1024).length < n := by
          simp [List.length_drop]; omega
        have := ih (content.drop 1024) hdrop
        simp [chunkReads, hc]
        simp [List.length_drop] at this ⊢
        omega

lemma foldl_update_acc :
    ∀ (L : List (List Nat)) (a : List Nat),
      (L.foldl Hasher.update (Hasher.mk a)).acc = a ++ L.flatten := by
  intro L
  induction L with
  | nil => intro a; simp
  | cons c L ih => intro a; simp [Hasher.update, ih, List.append_assoc]

/- ## Remote metadata and pagination (mediafire.py lines 121-137)

   A remote file entry carries the fields download_file reads from the
   per-file dictionaries of a folder_content response.  A raw page models
   one chunk of the paginated get_content response; a missing field stands
   for the KeyError raised when the expected key is absent. -/

structure FileEntry where
  filename : String
  hash : String
  normal_download : String
deriving DecidableEq, Repr

structure RawPage where
  more_chunks : Option String
  files : Option (List FileEntry)
deriving DecidableEq, Repr

/-- Outcome of the fetch loop of download_folder: the accumulated entries
    together with the chunk indices requested, the KeyError branch that
    prints the message Invalid link and returns, or exhausted fuel
    (the while loop still running). -/
inductive FolderFetch where
  | ok (entries : List FileEntry) (requested : List Nat) : FolderFetch
  | invalidLink : FolderFetch
  | fuelOut : FolderFetch
deriving DecidableEq, Repr

/-- The while loop at lines 127-133: request chunk c, read more_chunks,
    extend data with the files list, continue while more_chunks is the
    string yes.  A missing key on either access raises KeyError, caught at
    line 135. -/
def download_folder_loop (server : Nat → RawPage) :
    Nat → Nat → List FileEntry → List Nat → FolderFetch
  | 0, _, _, _ => FolderFetch.fuelOut
  | fuel + 1, c, data, req =>
      match (server c).more_chunks, (server c).files with
      | some m, some fs =>
          if m = "yes"
          then download_folder_loop server fuel (c + 1) (data ++ fs) (req ++ [ c ])
          else FolderFetch.ok (data ++ fs) (req ++ [ c ])
      | _, _ => FolderFetch.invalidLink

/-- Lines 121-137: the loop starts at chunk 1 with empty accumulators. -/
def download_folder (server : Nat → RawPage) (fuel : Nat) : FolderFetch :=
  download_folder_loop server fuel 1 [] []

/-- What the except KeyError branch at lines 135-137 prints. -/
def folder_report : FolderFetch → List String
  | FolderFetch.invalidLink => [ "Invalid link" ]
  | _ => []

/-- The message printed at line 54 of main for an unrecognized share URL. -/
def invalid_link_message (url : String) : String :=
  "Invalid link: " ++ url

def filesOf (p : RawPage) : List FileEntry :=
  p.files.getD []

/-- The concatenation of the files lists served on chunks c, c+1, ...,
    c+len-1. -/
def pagesFiles (server : Nat → RawPage) (c len : Nat) : List FileEntry :=
  ((List.range len).map (fun i => filesOf (server (c + i)))).flatten

/-- A page that parses and asks for more chunks. -/
def yesPage (server : Nat → RawPage) (i : Nat) : Prop :=
  (server i).more_chunks = some "yes" ∧ (server i).files ≠ none

lemma pagesFiles_succ (server : Nat → RawPage) (c n : Nat) :
    pagesFiles server c (n + 1) =
      filesOf (server c) ++ pagesFiles server (c + 1) n := by
  rw [pagesFiles, pagesFiles, List.range_succ_eq_map, List.map_cons, List.flatten_cons,
    List.map_map, Nat.add_zero]
  congr 1
  congr 1
  apply List.map_congr_left
  intro a _
  simp only [Function.comp]
  have harith : c + Nat.succ a = c + 1 + a := by omega
  rw [harith]

lemma rangeMap_succ (c n : Nat) :
    (List.range (n + 1)).map (fun i => c + i) =
      c :: (List.range n).map (fun i => (c + 1) + i) := by
  rw [List.range_succ_eq_map, List.map_cons, List.map_map, Nat.add_zero]
  congr 1
  apply List.map_congr_left
  intro a _
  simp only [Function.comp]
  omega

lemma loop_advance (server : Nat → RawPage) :
    ∀ (len fuel c : Nat) (data : List FileEntry) (req : List Nat),
      len ≤ fuel →
      (∀ i, c ≤ i → i < c + len → yesPage server i) →
      download_folder_loop server fuel c data req =
        download_folder_loop server (fuel - len) (c + len)
          (data ++ pagesFiles server c len)
          (req ++ (List.range len).map (fun i => c + i)) := by
  intro len
  induction len with
  | zero =>
      intro fuel c data req _ _
      simp [pagesFiles]
  | succ n ih =>
      intro fuel c data req hf hyes
      obtain ⟨f, rfl⟩ : ∃ f, fuel = f + 1 := ⟨fuel - 1, by omega⟩
      obtain ⟨hm, hfsne⟩ := hyes c (Nat.le_refl c) (by omega)
      obtain ⟨fs, hfs⟩ := Option.ne_none_iff_exists.mp hfsne
      have hyes2 : ∀ i, c + 1 ≤ i → i < (c + 1) + n → yesPage server i := by
        intro i h1 h2
        exact hyes i (by omega) (by omega)
      have hstep : download_folder_loop server (f + 1) c data req =
          download_folder_loop server f (c + 1) (data ++ fs) (req ++ [ c ]) := by
        rw [download_folder_loop, hm, ← hfs]
        simp
      rw [hstep, ih f (c + 1) (data ++ fs) (req ++ [ c ]) (by omega) hyes2]
      have hfo : filesOf (server c) = fs := by
        simp [filesOf, ← hfs]
      rw [pagesFiles_succ, hfo, rangeMap_succ]
      have h1 : f + 1 - (n + 1) = f - n := by omega
      have h2 : c + (n + 1) = c + 1 + n := by omega
      simp [h1, h2, List.append_assoc]

/- ## Folder traversal (mediafire.py lines 93-119 and 139-141)

   get_folders processes one folder node: it runs download_folder on the
   files listing of the node and then recurses into each subfolder.  The
   remote folder tree is represented with the files server of each node
   and its subfolders; a forest is the list of children. -/

mutual
inductive FolderTree : Type where
  | node : (Nat → RawPage) → FolderForest → FolderTree

inductive FolderForest : Type where
  | nil : FolderForest
  | cons : FolderTree → FolderForest → FolderForest
end

/- The sequence of download_folder outcomes produced by the depth-first
   traversal of get_folders, root first (line 110 before the recursion at
   lines 116-119). -/
mutual
def get_folders (fuel : Nat) : FolderTree → List FolderFetch
  | FolderTree.node srv subs => download_folder srv fuel :: get_folders_forest fuel subs

def get_folders_forest (fuel : Nat) : FolderForest → List FolderFetch
  | FolderForest.nil => []
  | FolderForest.cons t ts => get_folders fuel t ++ get_folders_forest fuel ts
end

/-- How many threading.Event objects one traversal creates: line 139 runs
    once per download_folder call that survives the fetch loop (the except
    KeyError branch returns at line 137, before the Event is created). -/
def fetchOk : FolderFetch → Nat
  | FolderFetch.ok _ _ => 1
  | _ => 0

mutual
def events_created (fuel : Nat) : FolderTree → Nat
  | FolderTree.node srv subs =>
      fetchOk (download_folder srv fuel) + events_created_forest fuel subs

def events_created_forest (fuel : Nat) : FolderForest → Nat
  | FolderForest.nil => 0
  | FolderForest.cons t ts => events_created fuel t + events_created_forest fuel ts
end

/- Number of folder nodes of the remote tree. -/
mutual
def tree_size : FolderTree → Nat
  | FolderTree.node _ subs => 1 + forest_size subs

def forest_size : FolderForest → Nat
  | FolderForest.nil => 0
  | FolderForest.cons t ts => tree_size t + forest_size ts
end

/- Every folder listing of the tree parses and terminates within fuel. -/
mutual
def allOk (fuel : Nat) : FolderTree → Bool
  | FolderTree.node srv subs =>
      (match download_folder srv fuel with
       | FolderFetch.ok _ _ => true
       | _ => false) && allOk_forest fuel subs

def allOk_forest (fuel : Nat) : FolderForest → Bool
  | FolderForest.nil => true
  | FolderForest.cons t ts => allOk fuel t && allOk_forest fuel ts
end

/- ## Bounded Download Pool (mediafire.py lines 139-169)

   download_folder creates one threading.Event and one
   threading.BoundedSemaphore(threads_num) and hands the same two objects
   to every thread it spawns (lines 143-153).  The semaphore and the
   cancellation flag are embedded as a small-step transition system: each
   worker is queued until its acquire at line 173 succeeds, holds a permit
   until it releases on one of the exit paths of download_file, and is
   finished afterwards.  A blocking acquire of a counting semaphore of
   capacity cap is enabled exactly when fewer than cap workers hold a
   permit.  The interrupt step is the event.set() call at line 165. -/

inductive WPhase where
  | queued : WPhase
  | holding : WPhase
  | finished : WPhase
deriving DecidableEq, Repr

structure PoolState where
  phases : List WPhase
  event : Bool
deriving DecidableEq, Repr

def countHolding : List WPhase → Nat
  | [] => 0
  | WPhase.holding :: ws => countHolding ws + 1
  | _ :: ws => countHolding ws

/-- Number of workers currently holding a permit. -/
def holders (s : PoolState) : Nat :=
  countHolding s.phases

inductive PoolStep (cap : Nat) : PoolState → PoolState → Prop
  | acquire (s : PoolState) (i : Nat)
      (hi : s.phases[i]? = some WPhase.queued)
      (hcap : holders s < cap) :
      PoolStep cap s (PoolState.mk (s.phases.set i WPhase.holding) s.event)
  | release (s : PoolState) (i : Nat)
      (hi : s.phases[i]? = some WPhase.holding) :
      PoolStep cap s (PoolState.mk (s.phases.set i WPhase.finished) s.event)
  | interrupt (s : PoolState) (h : s.event = false) :
      PoolStep cap s (PoolState.mk s.phases true)

/-- Lines 139-156: n workers spawned, none holding, event unset. -/
def initPool (n : Nat) : PoolState :=
  PoolState.mk (List.replicate n WPhase.queued) false

inductive PoolReachable (cap n : Nat) : PoolState → Prop
  | init : PoolReachable cap n (initPool n)
  | step {s s2 : PoolState} :
      PoolReachable cap n s → PoolStep cap s s2 → PoolReachable cap n s2

/-- The arguments handed to each spawned thread at lines 143-153: the same
    event and the same limiter for every file of the listing. -/
structure ThreadSpec where
  file : FileEntry
  eventId : Nat
  limiterId : Nat
deriving DecidableEq, Repr

def spawn_threads (data : List FileEntry) (eventId limiterId : Nat) : List ThreadSpec :=
  data.map (fun f => ThreadSpec.mk f eventId limiterId)

def threadAlive : WPhase → Bool
  | WPhase.finished => false
  | _ => true

/-- The polling loop at lines 158-162 over a trace of observed pool
    states: it leaves the loop at the first state where no spawned thread
    is alive. -/
def wait_loop : List PoolState → Option PoolState
  | [] => none
  | s :: rest =>
      if s.phases.all (fun w => !(threadAlive w)) then some s else wait_loop rest

lemma countHolding_set_holding :
    ∀ (l : List WPhase) (i : Nat), l[i]? = some WPhase.queued →
      countHolding (l.set i WPhase.holding) = countHolding l + 1 := by
  intro l
  induction l with
  | nil => intro i h; simp at h
  | cons w ws ih =>
      intro i h
      cases i with
      | zero =>
          simp at h
          subst h
          simp [countHolding]
      | succ j =>
          simp at h
          cases w with
          | queued => simp [countHolding, ih j h]
          | holding => simp [countHolding, ih j h]
          | finished => simp [countHolding, ih j h]

lemma countHolding_set_finished :
    ∀ (l : List WPhase) (i : Nat), l[i]? = some WPhase.holding →
      countHolding l = countHolding (l.set i WPhase.finished) + 1 := by
  intro l
  induction l with
  | nil => intro i h; simp at h
  | cons w ws ih =>
      intro i h
      cases i with
      | zero =>
          simp at h
          subst h
          simp [countHolding]
      | succ j =>
          simp at h
          cases w with
          | queued => simp [countHolding, ih j h]
          | holding => simp [countHolding, ih j h]
          | finished => simp [countHolding, ih j h]

lemma countHolding_replicate_queued (n : Nat) :
    countHolding (List.replicate n WPhase.queued) = 0 := by
  induction n with
  | zero => rfl
  | succ m ih => simp [List.replicate, countHolding, ih]

/-- Invariant of the semaphore system: no reachable state has more than
    cap permit holders. -/
lemma pool_bound (cap n : Nat) :
    ∀ s : PoolState, PoolReachable cap n s → holders s ≤ cap := by
  intro s hs
  induction hs with
  | init => simp [holders, initPool, countHolding_replicate_queued]
  | step hr hstep ih =>
      cases hstep with
      | acquire i hi hcap =>
          simp only [holders] at ih hcap ⊢
          rw [countHolding_set_holding _ _ hi]
          omega
      | release i hi =>
          simp only [holders] at ih ⊢
          have h2 := countHolding_set_finished _ _ hi
          omega
      | interrupt h => exact ih

lemma wait_loop_stopped :
    ∀ (trace : List PoolState) (s : PoolState), wait_loop trace = some s →
      ∀ w ∈ s.phases, w = WPhase.finished := by
  intro trace
  induction trace with
  | nil => intro s h; simp [wait_loop] at h
  | cons x rest ih =>
      intro s h
      by_cases hx : x.phases.all (fun w => !(threadAlive w))
      · rw [wait_loop, if_pos hx] at h
        cases h
        intro w hw
        have := List.all_eq_true.mp hx w hw
        cases w with
        | queued => simp [threadAlive] at this
        | holding => simp [threadAlive] at this
        | finished => rfl
      · rw [wait_loop, if_neg hx] at h
        exact ih s h

/- ## Download Worker (mediafire.py lines 171-239)

   The environment of one download_file call fixes everything the worker
   observes: the file entry, the content of a preexisting local file of
   the normalized name (none when os.path.exists is false), whether the
   preflight HEAD reports gzip encoding, the link extracted from the
   interstitial page (none when the expected markup is missing, which
   raises inside the try at lines 196-209), the behaviour of the body
   request, and the cancellation event.  Each event.is_set() call is
   numbered in program order: call 0 is line 191, calls 1, 2, ... are the
   per-chunk checks at line 217, and the final call is line 229.  The
   event is one-shot: setTime is the global instant at which it is set,
   and call k observes it set exactly when setTime has passed callTime k.
   A transport failure mid-body is modelled by midError: the iterator
   raises, at instant errTime, after yielding all listed chunks. -/

inductive Response where
  | connectError : Response
  | stream (chunks : List (List Nat)) (midError : Bool) (errTime : Nat) : Response
deriving DecidableEq, Repr

structure DownloadEnv where
  entry : FileEntry
  localFile : Option (List Nat)
  headGzip : Bool
  interstitial : Option String
  response : Response
  hasEvent : Bool
  hasLimiter : Bool
  setTime : Option Nat
  callTime : Nat → Nat

def eventObserved (env : DownloadEnv) (k : Nat) : Bool :=
  env.hasEvent &&
    (match env.setTime with
     | none => false
     | some t => decide (t ≤ env.callTime k))

/-- Result of the streaming loop at lines 215-220: the bytes written,
    the next unused is_set call index, and whether the loop left via the
    break at line 218.  The check at line 216-218 runs after the iterator
    yields a chunk and before that chunk is written; an empty yielded
    chunk is skipped by the guard at line 219, which writes the same
    bytes. -/
structure StreamOut where
  written : List Nat
  nextCall : Nat
  broke : Bool
deriving DecidableEq, Repr

def stream_chunks (obs : Nat → Bool) : Nat → List (List Nat) → StreamOut
  | k, [] => StreamOut.mk [] k false
  | k, c :: cs =>
      if obs k then StreamOut.mk [] (k + 1) true
      else
        let r := stream_chunks obs (k + 1) cs
        StreamOut.mk (c ++ r.written) r.nextCall r.broke

inductive Terminal where
  | skipped : Terminal
  | cancelledBeforeStart : Terminal
  | blocked : Terminal
  | failed : Terminal
  | cancelledAfterStream : Terminal
  | completed : Terminal
deriving DecidableEq, Repr

/-- The observable outcome of one download_file call: its terminal state,
    the file left on disk under the normalized name (with its content),
    how many permits were acquired and released, how many HTTP requests
    were issued, and the lines printed. -/
structure WorkerResult where
  terminal : Terminal
  fileOnDisk : Option (List Nat)
  acquired : Nat
  released : Nat
  httpRequests : Nat
  messages : List String
deriving DecidableEq, Repr

/-- Lines 34-38. -/
def print_error_message (link : String) : String :=
  "Error: Deleted file or Dangerous File Blocked\nTake a look if you want to be sure: " ++ link

/-- Lines 211-239: body transfer.  baseReqs counts the requests already
    issued (HEAD, and the interstitial GET when taken); the body GET is
    one more.  The message for a transport failure elides the Python
    exception text. -/
def download_file_stream (env : DownloadEnv) (filename link : String)
    (msgs0 : List String) (baseReqs : Nat) : WorkerResult :=
  match env.response with
  | Response.connectError =>
      WorkerResult.mk Terminal.failed env.localFile
        (if env.hasLimiter then 1 else 0) (if env.hasLimiter then 1 else 0)
        (baseReqs + 1)
        (msgs0 ++ [ "Error downloading " ++ filename, print_error_message link ])
  | Response.stream chunks midError _ =>
      let r := stream_chunks (eventObserved env) 1 chunks
      if !r.broke && midError then
        WorkerResult.mk Terminal.failed (some r.written)
          (if env.hasLimiter then 1 else 0) (if env.hasLimiter then 1 else 0)
          (baseReqs + 1)
          (msgs0 ++ [ "Error downloading " ++ filename, print_error_message link ])
      else
        if eventObserved env r.nextCall then
          WorkerResult.mk Terminal.cancelledAfterStream none
            (if env.hasLimiter then 1 else 0) (if env.hasLimiter then 1 else 0)
            (baseReqs + 1)
            (msgs0 ++ [ "Partially downloaded " ++ filename ++ " deleted" ])
        else
          WorkerResult.mk Terminal.completed (some r.written)
            (if env.hasLimiter then 1 else 0) (if env.hasLimiter then 1 else 0)
            (baseReqs + 1)
            (msgs0 ++ [ filename ++ " downloaded" ])

/-- Lines 188-209: the Downloading line, the pre-transfer cancellation
    check, and the interstitial bypass. -/
def download_file_after_check (env : DownloadEnv) (filename : String)
    (msgs0 : List String) : WorkerResult :=
  let msgs1 := msgs0 ++ [ "Downloading " ++ filename ]
  if eventObserved env 0 then
    WorkerResult.mk Terminal.cancelledBeforeStart env.localFile
      (if env.hasLimiter then 1 else 0) (if env.hasLimiter then 1 else 0)
      0 msgs1
  else
    match env.headGzip, env.interstitial with
    | true, none =>
        WorkerResult.mk Terminal.blocked env.localFile
          (if env.hasLimiter then 1 else 0) (if env.hasLimiter then 1 else 0)
          2 (msgs1 ++ [ print_error_message env.entry.normal_download ])
    | true, some link2 =>
        download_file_stream env filename link2 msgs1 2
    | false, _ =>
        download_file_stream env filename env.entry.normal_download msgs1 1

/-- Lines 171-239: one worker.  The permit is acquired at line 173; the
    local-copy hash comparison at lines 179-186 uses hash_file. -/
def download_file (isalnum : Char → Bool) (sha256 : List Nat → String)
    (env : DownloadEnv) : WorkerResult :=
  let filename := normalize_file_or_folder_name isalnum env.entry.filename
  match env.localFile with
  | some content =>
      if hash_file sha256 content = env.entry.hash then
        WorkerResult.mk Terminal.skipped (some content)
          (if env.hasLimiter then 1 else 0) (if env.hasLimiter then 1 else 0)
          0 [ filename ++ " already exists, skipping" ]
      else
        download_file_after_check env filename
          [ filename ++ " already exists but corrupted, downloading again" ]
  | none => download_file_after_check env filename []

/-- The instant at which the body transfer is over: the exception instant
    for a failing stream, and otherwise an upper bound given by the
    instant of the final is_set call at line 229. -/
def streamEndTime (env : DownloadEnv) : Nat :=
  match env.response with
  | Response.stream chunks midError errTime =>
      if midError then errTime else env.callTime (chunks.length + 1)
  | _ => 0

/-- The cancellation signal is set while the worker is mid-transfer:
    strictly after the pre-transfer check at line 191 and no later than
    the end of the body transfer. -/
def set_during_streaming (env : DownloadEnv) : Prop :=
  match env.setTime with
  | some t => env.callTime 0 < t ∧ t ≤ streamEndTime env
  | none => False

lemma stream_written_prefix (obs : Nat → Bool) :
    ∀ (cs : List (List Nat)) (k : Nat),
      ∃ j, j ≤ cs.length ∧ (stream_chunks obs k cs).written = (cs.take j).flatten := by
  intro cs
  induction cs with
  | nil => intro k; exact ⟨0, by simp, by simp [stream_chunks]⟩
  | cons c cs ih =>
      intro k
      by_cases h : obs k
      · exact ⟨0, by simp, by simp [stream_chunks, h]⟩
      · obtain ⟨j, hj, hw⟩ := ih (k + 1)
        refine ⟨j + 1, by simp; omega, ?_⟩
        simp [stream_chunks, h, hw]

lemma stream_not_broke (obs : Nat → Bool) :
    ∀ (cs : List (List Nat)) (k : Nat),
      (stream_chunks obs k cs).broke = false →
      (stream_chunks obs k cs).nextCall = k + cs.length ∧
      (stream_chunks obs k cs).written = cs.flatten := by
  intro cs
  induction cs with
  | nil => intro k _; simp [stream_chunks]
  | cons c cs ih =>
      intro k hb
      by_cases h : obs k
      · simp [stream_chunks, h] at hb
      · simp [stream_chunks, h] at hb ⊢
        obtain ⟨h1, h2⟩ := ih (k + 1) hb
        constructor
        · omega
        · exact h2

lemma stream_broke_obs (obs : Nat → Bool) :
    ∀ (cs : List (List Nat)) (k : Nat),
      (stream_chunks obs k cs).broke = true →
      ∃ j, obs j = true ∧ (stream_chunks obs k cs).nextCall = j + 1 := by
  intro cs
  induction cs with
  | nil => intro k hb; simp [stream_chunks] at hb
  | cons c cs ih =>
      intro k hb
      by_cases h : obs k
      · exact ⟨k, h, by simp [stream_chunks, h]⟩
      · simp [stream_chunks, h] at hb
        obtain ⟨j, hj, hn⟩ := ih (k + 1) hb
        exact ⟨j, hj, by simp [stream_chunks, h]; exact hn⟩

/-- With a monotone observation sequence, if the signal is observed by
    the instant of the final possible check then the check following the
    loop sees it set, whether or not the loop broke early. -/
lemma stream_final_obs (obs : Nat → Bool)
    (hmono : ∀ j k2, j ≤ k2 → obs j = true → obs k2 = true) :
    ∀ (cs : List (List Nat)) (k : Nat),
      obs (k + cs.length) = true →
      obs ((stream_chunks obs k cs).nextCall) = true := by
  intro cs k hend
  by_cases hb : (stream_chunks obs k cs).broke = true
  · obtain ⟨j, hj, hn⟩ := stream_broke_obs obs cs k hb
    rw [hn]
    exact hmono j (j + 1) (by omega) hj
  · have := (stream_not_broke obs cs k (by simpa using hb)).1
    rw [this]
    exact hend

/- ## Sample data used by witnesses and counterexamples -/

def sampleEntryA : FileEntry := FileEntry.mk "a.txt" "ha" "la"

def sampleEntryB : FileEntry := FileEntry.mk "b.txt" "hb" "lb"

def sampleServer2 : Nat → RawPage := fun k =>
  if k = 1 then RawPage.mk (some "yes") (some [ sampleEntryA ])
  else if k = 2 then RawPage.mk (some "no") (some [ sampleEntryB ])
  else RawPage.mk none none

/- ## Claims -/

/-- Claim C5: the Name Normalizer maps each character to itself when it is
    alphanumeric or one of hyphen, underscore, period, space, and to a
    hyphen otherwise; it is total and the output length equals the input
    length (position-wise mapping, no deletion). -/
theorem c5_normalizer_pointwise (isalnum : Char → Bool) (s : String) :
    (normalize_file_or_folder_name isalnum s).length = s.length ∧
    ∀ i, i < s.length →
      (normalize_file_or_folder_name isalnum s).data[i]? =
        (s.data[i]?).map (normalize_char isalnum) := by
  constructor
  · show (normalize_file_or_folder_name isalnum s).data.length = s.data.length
    rw [normalize_data]
    simp
  · intro i _
    rw [normalize_data, List.getElem?_map]

/-- Witness for C5 at the concrete name a:b and position 1. -/
theorem c5_witness :
    1 < ("a:b" : String).length ∧
    (normalize_file_or_folder_name Char.isAlphanum "a:b").data[1]? = some '-' := by
  have h := (c5_normalizer_pointwise Char.isAlphanum "a:b").2 1 (by decide)
  refine ⟨by decide, ?_⟩
  rw [h]
  decide

/-- Claim C10: the Name Normalizer is idempotent, since every character it
    can output lies in the preserved set. -/
theorem c10_normalizer_idempotent (isalnum : Char → Bool) (s : String) :
    normalize_file_or_folder_name isalnum (normalize_file_or_folder_name isalnum s) =
      normalize_file_or_folder_name isalnum s := by
  apply String.ext
  rw [normalize_data, normalize_data, List.map_map]
  apply List.map_congr_left
  intro a _
  exact normalize_char_idem isalnum a

/-- Claim C9: hash_file digests the full byte stream of the file, reading
    it in buffered chunks of at most 1024 bytes, and the read loop makes
    finitely many reads on every finite file. -/
theorem c9_hash_stream (sha256 : List Nat → String) (content : List Nat) :
    hash_file sha256 content = sha256 content ∧
    (∀ c ∈ hash_file_chunks content, c.length ≤ 1024) ∧
    (hash_file_chunks content).length ≤ content.length + 1 := by
  refine ⟨?_, ?_, ?_⟩
  · rw [hash_file, Hasher.hexdigest, foldl_update_acc, List.nil_append,
      hash_file_chunks, chunkReads_join (content.length + 1) content (by omega)]
  · intro c hc
    exact chunkReads_size _ _ _ hc
  · exact chunkReads_count _ _ (by omega)

/-- Witness for C9 at the concrete stream 1, 2, 3 and a concrete digest
    function. -/
theorem c9_witness :
    [ 1, 2, 3 ] ∈ hash_file_chunks [ 1, 2, 3 ] ∧
    List.length [ 1, 2, 3 ] ≤ 1024 ∧
    hash_file (fun _ => "d") [ 1, 2, 3 ] = "d" := by
  have h := c9_hash_stream (fun _ => "d") [ 1, 2, 3 ]
  exact ⟨by decide, h.2.1 [ 1, 2, 3 ] (by decide), h.1⟩

lemma pagesFiles_snoc (server : Nat → RawPage) (c n : Nat) :
    pagesFiles server c (n + 1) = pagesFiles server c n ++ filesOf (server (c + n)) := by
  simp [pagesFiles, List.range_succ]

/-- Claim C3: on a listing split across n pages whose more_chunks flag is
    yes on every page but the last, the fetch loop requests exactly the
    chunks 1, ..., n in order and returns the concatenation of the files
    lists of all pages, whose length is the sum of the page sizes (no
    entry duplicated or dropped). -/
theorem c3_pagination_complete (server : Nat → RawPage) (n fuel : Nat)
    (hn : 2 ≤ n) (hfuel : n ≤ fuel)
    (hyes : ∀ i, 1 ≤ i → i < n → yesPage server i)
    (hlast : ∃ m, (server n).more_chunks = some m ∧ m ≠ "yes")
    (hlastf : (server n).files ≠ none) :
    download_folder server fuel =
      FolderFetch.ok (pagesFiles server 1 n) ((List.range n).map (fun i => 1 + i)) ∧
    (pagesFiles server 1 n).length =
      ((List.range n).map (fun i => (filesOf (server (1 + i))).length)).sum := by
  obtain ⟨k, rfl⟩ : ∃ k, n = k + 1 := ⟨n - 1, by omega⟩
  constructor
  · rw [download_folder]
    rw [loop_advance server k fuel 1 [] [] (by omega)
      (fun i h1 h2 => hyes i h1 (by omega))]
    obtain ⟨f2, hf2⟩ : ∃ f2, fuel - k = f2 + 1 := ⟨fuel - k - 1, by omega⟩
    obtain ⟨m, hm, hmne⟩ := hlast
    obtain ⟨fs, hfs⟩ := Option.ne_none_iff_exists.mp hlastf
    have hc : 1 + k = k + 1 := by omega
    rw [hf2, hc, download_folder_loop, hm, ← hfs]
    simp [hmne, pagesFiles_snoc, List.range_succ, hc, filesOf, ← hfs]
  · simp [pagesFiles, List.map_map]
    rfl

/-- Witness for C3 on a concrete two-page listing. -/
theorem c3_witness :
    download_folder sampleServer2 5 =
      FolderFetch.ok [ sampleEntryA, sampleEntryB ] [ 1, 2 ] := by
  have h := c3_pagination_complete sampleServer2 2 5 (Nat.le_refl 2) (by omega)
    (fun i h1 h2 => by
      have hi : i = 1 := by omega
      rw [hi]
      exact ⟨by decide, by decide⟩)
    ⟨"no", by decide, by decide⟩
    (by decide)
  rw [h.1]
  decide

/-- Claim C2: for any capacity of at least one, no reachable state of the
    pool has more than that many simultaneous permit holders, and every
    thread spawned for one folder level is handed the same limiter. -/
theorem c2_concurrency_bound :
    (∀ (cap n : Nat) (s : PoolState), 1 ≤ cap → PoolReachable cap n s →
      holders s ≤ cap) ∧
    (∀ (data : List FileEntry) (eventId limiterId : Nat),
      ∀ th ∈ spawn_threads data eventId limiterId, th.limiterId = limiterId) := by
  constructor
  · intro cap n s _ hs
    exact pool_bound cap n s hs
  · intro data eventId limiterId th hth
    simp only [spawn_threads, List.mem_map] at hth
    obtain ⟨f, _, rfl⟩ := hth
    rfl

/-- Witness for C2: capacity 1 with two spawned workers, and a concrete
    spawn sharing limiter 7. -/
theorem c2_witness :
    (1 : Nat) ≤ 1 ∧
    holders (initPool 2) ≤ 1 ∧
    ThreadSpec.mk sampleEntryA 0 7 ∈ spawn_threads [ sampleEntryA ] 0 7 ∧
    (ThreadSpec.mk sampleEntryA 0 7).limiterId = 7 := by
  refine ⟨Nat.le_refl 1, ?_, by decide, ?_⟩
  · exact c2_concurrency_bound.1 1 2 (initPool 2) (Nat.le_refl 1) PoolReachable.init
  · exact c2_concurrency_bound.2 [ sampleEntryA ] 0 7
      (ThreadSpec.mk sampleEntryA 0 7) (by decide)

/-- Claim C6: an existing local file whose hash equals the remote hash
    makes the worker skip: terminal state Skipped, zero HTTP requests,
    the local file untouched, the permit released, and the skip reported. -/
theorem c6_skip_idempotent (isalnum : Char → Bool) (sha256 : List Nat → String)
    (env : DownloadEnv) (content : List Nat)
    (hLim : env.hasLimiter = true)
    (hLocal : env.localFile = some content)
    (hHash : hash_file sha256 content = env.entry.hash) :
    (download_file isalnum sha256 env).terminal = Terminal.skipped ∧
    (download_file isalnum sha256 env).httpRequests = 0 ∧
    (download_file isalnum sha256 env).fileOnDisk = some content ∧
    (download_file isalnum sha256 env).released = 1 ∧
    (download_file isalnum sha256 env).messages =
      [ normalize_file_or_folder_name isalnum env.entry.filename ++
        " already exists, skipping" ] := by
  refine ⟨?_, ?_, ?_, ?_, ?_⟩ <;> simp [download_file, hLocal, hHash, hLim]

def sampleEntrySkip : FileEntry := FileEntry.mk "a.txt" "d" "la"

def sampleEnvSkip : DownloadEnv :=
  DownloadEnv.mk sampleEntrySkip (some [ 7 ]) false none Response.connectError
    true true none (fun k => k)

/-- Witness for C6 on a concrete environment whose local copy hashes to
    the remote hash. -/
theorem c6_witness :
    sampleEnvSkip.localFile = some [ 7 ] ∧
    hash_file (fun _ => "d") [ 7 ] = sampleEnvSkip.entry.hash ∧
    (download_file Char.isAlphanum (fun _ => "d") sampleEnvSkip).terminal =
      Terminal.skipped ∧
    (download_file Char.isAlphanum (fun _ => "d") sampleEnvSkip).httpRequests = 0 := by
  have h := c6_skip_idempotent Char.isAlphanum (fun _ => "d") sampleEnvSkip [ 7 ]
    rfl rfl rfl
  exact ⟨rfl, rfl, h.1, h.2.1⟩

lemma download_file_stream_permits (env : DownloadEnv) (filename link : String)
    (msgs0 : List String) (baseReqs : Nat) (hLim : env.hasLimiter = true) :
    (download_file_stream env filename link msgs0 baseReqs).acquired = 1 ∧
    (download_file_stream env filename link msgs0 baseReqs).released = 1 := by
  cases hr : env.response with
  | connectError => simp [download_file_stream, hr, hLim]
  | stream chunks midError errT =>
      simp only [download_file_stream, hr]
      constructor
      · split
        · simp [hLim]
        · split <;> simp [hLim]
      · split
        · simp [hLim]
        · split <;> simp [hLim]

lemma download_file_after_check_permits (env : DownloadEnv)
    (filename : String) (msgs0 : List String) (hLim : env.hasLimiter = true) :
    (download_file_after_check env filename msgs0).acquired = 1 ∧
    (download_file_after_check env filename msgs0).released = 1 := by
  by_cases h0 : eventObserved env 0
  · simp [download_file_after_check, h0, hLim]
  · cases hg : env.headGzip with
    | true =>
        cases hi : env.interstitial with
        | none => simp [download_file_after_check, h0, hg, hi, hLim]
        | some link2 =>
            simp only [download_file_after_check, h0, hg, hi, Bool.false_eq_true,
              if_false]
            exact download_file_stream_permits env filename link2 _ 2 hLim
    | false =>
        simp only [download_file_after_check, h0, hg, Bool.false_eq_true, if_false]
        exact download_file_stream_permits env filename env.entry.normal_download _ 1 hLim

/-- Claim C4: every run of download_file with a limiter acquires exactly
    one permit and releases exactly one permit, on every exit path
    including skip, pre-start cancellation, blocked, failure, cancellation
    after streaming, and completion. -/
theorem c4_permit_balance (isalnum : Char → Bool) (sha256 : List Nat → String)
    (env : DownloadEnv) (hLim : env.hasLimiter = true) :
    (download_file isalnum sha256 env).acquired = 1 ∧
    (download_file isalnum sha256 env).released = 1 := by
  cases hl : env.localFile with
  | none =>
      simp only [download_file, hl]
      exact download_file_after_check_permits env _ _ hLim
  | some content =>
      by_cases hh : hash_file sha256 content = env.entry.hash
      · simp [download_file, hl, hh, hLim]
      · simp only [download_file, hl, if_neg hh]
        exact download_file_after_check_permits env _ _ hLim

/-- Witness for C4 on a concrete environment. -/
theorem c4_witness :
    sampleEnvSkip.hasLimiter = true ∧
    (download_file Char.isAlphanum (fun _ => "d") sampleEnvSkip).acquired = 1 ∧
    (download_file Char.isAlphanum (fun _ => "d") sampleEnvSkip).released = 1 := by
  have h := c4_permit_balance Char.isAlphanum (fun _ => "d") sampleEnvSkip rfl
  exact ⟨rfl, h.1, h.2⟩

def malformedServer : Nat → RawPage := fun _ => RawPage.mk none none

/-- Counterexample to C7 as stated: on a malformed first page the code
    prints exactly the words Invalid link, the wording of the
    invalid-share-link report of main (line 54), so the condition is not
    reported as a MetadataParseError distinct from an invalid link. -/
theorem c7_counterexample :
    download_folder malformedServer 3 = FolderFetch.invalidLink ∧
    folder_report (download_folder malformedServer 3) = [ "Invalid link" ] ∧
    (invalid_link_message "mediafire.com/folder/abc").data.take 12 =
      "Invalid link".data := by
  refine ⟨by decide, by decide, by decide⟩

/-- Claim C7 amended: a malformed page (missing more_chunks or files) at
    any point of the pagination makes download_folder return the
    invalid-link outcome, whose report is the line Invalid link; the
    traversal is unaffected beyond that listing: the outcomes of the
    subfolders do not depend on the files server of the aborted node. -/
theorem c7_metadata_parse_scope (server : Nat → RawPage) (fuel k : Nat)
    (subs : FolderForest)
    (hk : 1 ≤ k) (hfuel : k ≤ fuel)
    (hyes : ∀ i, 1 ≤ i → i < k → yesPage server i)
    (hbad : (server k).more_chunks = none ∨ (server k).files = none) :
    download_folder server fuel = FolderFetch.invalidLink ∧
    folder_report (download_folder server fuel) = [ "Invalid link" ] ∧
    (get_folders fuel (FolderTree.node server subs)).tail =
      get_folders_forest fuel subs ∧
    ∀ server2 : Nat → RawPage,
      (get_folders fuel (FolderTree.node server subs)).tail =
        (get_folders fuel (FolderTree.node server2 subs)).tail := by
  obtain ⟨j, rfl⟩ : ∃ j, k = j + 1 := ⟨k - 1, by omega⟩
  have hinv : download_folder server fuel = FolderFetch.invalidLink := by
    rw [download_folder]
    rw [loop_advance server j fuel 1 [] [] (by omega)
      (fun i h1 h2 => hyes i h1 (by omega))]
    obtain ⟨f2, hf2⟩ : ∃ f2, fuel - j = f2 + 1 := ⟨fuel - j - 1, by omega⟩
    have hc : 1 + j = j + 1 := by omega
    rw [hf2, hc, download_folder_loop]
    rcases hbad with hb | hb
    · rw [hb]
    · cases hm2 : (server (j + 1)).more_chunks with
      | none => rfl
      | some m => rw [hb]
  refine ⟨hinv, ?_, ?_, ?_⟩
  · rw [hinv]
    rfl
  · simp [get_folders]
  · intro server2
    simp [get_folders]

/-- Witness for the amended C7 on a concrete malformed listing with an
    empty subfolder forest. -/
theorem c7_scope_witness :
    download_folder malformedServer 3 = FolderFetch.invalidLink ∧
    (get_folders 3 (FolderTree.node malformedServer FolderForest.nil)).tail =
      get_folders_forest 3 FolderForest.nil := by
  have h := c7_metadata_parse_scope malformedServer 3 1 FolderForest.nil
    (Nat.le_refl 1) (by omega) (fun i h1 h2 => absurd h2 (by omega)) (Or.inl rfl)
  exact ⟨h.1, h.2.2.1⟩

/- ## Claim C8 support: events created by one traversal -/

mutual
lemma events_ok_tree (fuel : Nat) :
    ∀ t : FolderTree, allOk fuel t = true → events_created fuel t = tree_size t
  | FolderTree.node srv subs => by
      intro h
      rw [allOk] at h
      rw [events_created, tree_size]
      cases hdf : download_folder srv fuel with
      | ok e r =>
          rw [hdf] at h
          simp at h
          have h2 := events_ok_forest fuel subs h
          simp [fetchOk]
          omega
      | invalidLink =>
          rw [hdf] at h
          simp at h
      | fuelOut =>
          rw [hdf] at h
          simp at h

lemma events_ok_forest (fuel : Nat) :
    ∀ l : FolderForest, allOk_forest fuel l = true →
      events_created_forest fuel l = forest_size l
  | FolderForest.nil => by
      intro _
      rfl
  | FolderForest.cons t ts => by
      intro h
      rw [allOk_forest, Bool.and_eq_true] at h
      rw [events_created_forest, forest_size,
        events_ok_tree fuel t h.1, events_ok_forest fuel ts h.2]
end

def sampleServer1 : Nat → RawPage := fun k =>
  if k = 1 then RawPage.mk (some "no") (some [ sampleEntryA ])
  else RawPage.mk none none

def sampleTree2 : FolderTree :=
  FolderTree.node sampleServer1
    (FolderForest.cons (FolderTree.node sampleServer1 FolderForest.nil)
      FolderForest.nil)

/-- Counterexample to C8 as stated: one top-level invocation of the
    traversal over a root folder with one subfolder creates two
    threading.Event objects, not one. -/
theorem c8_counterexample :
    events_created 3 sampleTree2 = 2 ∧ tree_size sampleTree2 = 2 ∧ (2 : Nat) ≠ 1 := by
  refine ⟨by decide, by decide, by decide⟩

/-- Claim C8 amended: a CancellationSignal is created per download_folder
    invocation whose listing fetch succeeds — one per folder node of the
    traversal, not one per top-level invocation; within one invocation
    every spawned worker is handed that same signal; a step of the pool
    never clears a set signal, and the only step that changes it is the
    one-shot set from unset to set. -/
theorem c8_signal_per_pool :
    (∀ (fuel : Nat) (t : FolderTree), allOk fuel t = true →
      events_created fuel t = tree_size t) ∧
    (∀ (data : List FileEntry) (eventId limiterId : Nat),
      ∀ th ∈ spawn_threads data eventId limiterId, th.eventId = eventId) ∧
    (∀ (cap : Nat) (s s2 : PoolState), PoolStep cap s s2 →
      s.event = true → s2.event = true) ∧
    (∀ (cap : Nat) (s s2 : PoolState), PoolStep cap s s2 →
      s.event ≠ s2.event → s.event = false ∧ s2.event = true) := by
  refine ⟨?_, ?_, ?_, ?_⟩
  · intro fuel t
    exact events_ok_tree fuel t
  · intro data eventId limiterId th hth
    simp only [spawn_threads, List.mem_map] at hth
    obtain ⟨f, _, rfl⟩ := hth
    rfl
  · intro cap s s2 hstep hev
    cases hstep with
    | acquire i hi hcap => exact hev
    | release i hi => exact hev
    | interrupt h => rfl
  · intro cap s s2 hstep hne
    cases hstep with
    | acquire i hi hcap => exact absurd rfl hne
    | release i hi => exact absurd rfl hne
    | interrupt h => exact ⟨h, rfl⟩

/-- Witness for C8 on the concrete two-folder tree and a concrete spawn. -/
theorem c8_witness :
    allOk 3 sampleTree2 = true ∧
    events_created 3 sampleTree2 = tree_size sampleTree2 ∧
    ThreadSpec.mk sampleEntryA 4 7 ∈ spawn_threads [ sampleEntryA ] 4 7 ∧
    (ThreadSpec.mk sampleEntryA 4 7).eventId = 4 := by
  have ha : allOk 3 sampleTree2 = true := by decide
  refine ⟨ha, c8_signal_per_pool.1 3 sampleTree2 ha, by decide, ?_⟩
  exact c8_signal_per_pool.2.1 [ sampleEntryA ] 4 7 (ThreadSpec.mk sampleEntryA 4 7)
    (by decide)

lemma eventObserved_mono (env : DownloadEnv)
    (hmono : ∀ j k2, j ≤ k2 → env.callTime j ≤ env.callTime k2) :
    ∀ j k2, j ≤ k2 → eventObserved env j = true → eventObserved env k2 = true := by
  intro j k2 hjk h
  rw [eventObserved] at h ⊢
  cases hst : env.setTime with
  | none =>
      rw [hst] at h
      simp at h
  | some t =>
      rw [hst] at h
      simp at h ⊢
      exact ⟨h.1, Nat.le_trans h.2 (hmono j k2 hjk)⟩

lemma download_file_stream_cancelled (env : DownloadEnv) (filename link : String)
    (msgs0 : List String) (baseReqs : Nat)
    (chunks : List (List Nat)) (errT : Nat)
    (hresp : env.response = Response.stream chunks false errT)
    (hfinal : eventObserved env ((stream_chunks (eventObserved env) 1 chunks).nextCall) = true)
    (hLim : env.hasLimiter = true) :
    (download_file_stream env filename link msgs0 baseReqs).terminal =
      Terminal.cancelledAfterStream ∧
    (download_file_stream env filename link msgs0 baseReqs).fileOnDisk = none ∧
    (download_file_stream env filename link msgs0 baseReqs).released = 1 := by
  refine ⟨?_, ?_, ?_⟩ <;> simp [download_file_stream, hresp, hfinal, hLim]

lemma download_file_after_check_cancelled (env : DownloadEnv)
    (filename : String) (msgs0 : List String)
    (chunks : List (List Nat)) (errT : Nat)
    (hresp : env.response = Response.stream chunks false errT)
    (hfinal : eventObserved env ((stream_chunks (eventObserved env) 1 chunks).nextCall) = true)
    (hLim : env.hasLimiter = true)
    (hpre : eventObserved env 0 = false)
    (hint : env.headGzip = true → env.interstitial ≠ none) :
    (download_file_after_check env filename msgs0).terminal =
      Terminal.cancelledAfterStream ∧
    (download_file_after_check env filename msgs0).fileOnDisk = none ∧
    (download_file_after_check env filename msgs0).released = 1 := by
  cases hg : env.headGzip with
  | true =>
      cases hi : env.interstitial with
      | none => exact absurd hi (hint hg)
      | some link2 =>
          simp only [download_file_after_check, hpre, Bool.false_eq_true, if_false,
            hg, hi]
          exact download_file_stream_cancelled env filename link2 _ 2
            chunks errT hresp hfinal hLim
  | false =>
      simp only [download_file_after_check, hpre, Bool.false_eq_true, if_false, hg]
      exact download_file_stream_cancelled env filename env.entry.normal_download _ 1
        chunks errT hresp hfinal hLim

/-- Claim C1 amended: when the signal is set strictly after the
    pre-transfer check and within the transfer, and the body stream
    raises no transport error, the worker writes only a prefix of the
    chunk sequence, finishes in the cancelled state with no file left on
    disk, and releases its permit; and the pool polling loop only returns
    a state in which every spawned worker is finished.  (The unamended
    claim fails when a transport error arrives after the signal is set
    and before the next chunk-boundary check; see the counterexample.) -/
theorem c1_cancel_cleanup (isalnum : Char → Bool) (sha256 : List Nat → String)
    (env : DownloadEnv) (chunks : List (List Nat)) (errT : Nat)
    (hmono : ∀ j k2, j ≤ k2 → env.callTime j ≤ env.callTime k2)
    (hEv : env.hasEvent = true) (hLim : env.hasLimiter = true)
    (hskip : ∀ c, env.localFile = some c → hash_file sha256 c ≠ env.entry.hash)
    (hpre : eventObserved env 0 = false)
    (hint : env.headGzip = true → env.interstitial ≠ none)
    (hresp : env.response = Response.stream chunks false errT)
    (hmid : set_during_streaming env) :
    (download_file isalnum sha256 env).terminal = Terminal.cancelledAfterStream ∧
    (download_file isalnum sha256 env).fileOnDisk = none ∧
    (download_file isalnum sha256 env).released = 1 ∧
    (∃ j, j ≤ chunks.length ∧
      (stream_chunks (eventObserved env) 1 chunks).written = (chunks.take j).flatten) ∧
    (∀ (trace : List PoolState) (s : PoolState), wait_loop trace = some s →
      ∀ w ∈ s.phases, w = WPhase.finished) := by
  have hobs : eventObserved env (1 + chunks.length) = true := by
    rw [set_during_streaming] at hmid
    cases hst : env.setTime with
    | none =>
        rw [hst] at hmid
        exact absurd hmid not_false
    | some t =>
        rw [hst] at hmid
        obtain ⟨h1, h2⟩ := hmid
        rw [streamEndTime, hresp] at h2
        simp at h2
        rw [eventObserved, hst, hEv]
        simp
        rw [Nat.add_comm]
        exact h2
  have hfinal := stream_final_obs (eventObserved env) (eventObserved_mono env hmono)
    chunks 1 hobs
  have hmain : (download_file isalnum sha256 env).terminal =
        Terminal.cancelledAfterStream ∧
      (download_file isalnum sha256 env).fileOnDisk = none ∧
      (download_file isalnum sha256 env).released = 1 := by
    cases hl : env.localFile with
    | none =>
        simp only [download_file, hl]
        exact download_file_after_check_cancelled env _ _ chunks errT hresp hfinal
          hLim hpre hint
    | some content =>
        simp only [download_file, hl, if_neg (hskip content hl)]
        exact download_file_after_check_cancelled env _ _ chunks errT hresp hfinal
          hLim hpre hint
  refine ⟨hmain.1, hmain.2.1, hmain.2.2, ?_, ?_⟩
  · exact stream_written_prefix (eventObserved env) chunks 1
  · exact wait_loop_stopped

def sampleEnvCancel : DownloadEnv :=
  DownloadEnv.mk sampleEntryA none false none
    (Response.stream [ [ 5 ], [ 6 ] ] false 0) true true (some 2) (fun k => k)

/-- Witness for C1 on a concrete environment: the signal becomes set at
    instant 2, between the first and second chunk-boundary checks. -/
theorem c1_witness :
    eventObserved sampleEnvCancel 0 = false ∧
    set_during_streaming sampleEnvCancel ∧
    (download_file Char.isAlphanum (fun _ => "d") sampleEnvCancel).terminal =
      Terminal.cancelledAfterStream ∧
    (download_file Char.isAlphanum (fun _ => "d") sampleEnvCancel).fileOnDisk = none := by
  have hsd : set_during_streaming sampleEnvCancel := ⟨by decide, by decide⟩
  have h := c1_cancel_cleanup Char.isAlphanum (fun _ => "d") sampleEnvCancel
    [ [ 5 ], [ 6 ] ] 0
    (fun j k2 hjk => hjk) rfl rfl
    (fun c hc => Option.noConfusion hc)
    (by decide)
    (fun hg => Bool.noConfusion hg)
    rfl hsd
  exact ⟨by decide, hsd, h.1, h.2.1⟩

def sampleEnvRace : DownloadEnv :=
  DownloadEnv.mk sampleEntryA none false none
    (Response.stream [ [ 1 ], [ 2 ] ] true 6) true true (some 5) (fun k => k)

/-- Counterexample to C1 as stated: the signal is set at instant 5, while
    the body transfer is still in progress (it fails at instant 6), yet
    the iterator raises before any further chunk-boundary check, so the
    worker takes the failure path and the partially written file stays on
    disk. -/
theorem c1_counterexample :
    set_during_streaming sampleEnvRace ∧
    (download_file Char.isAlphanum (fun _ => "d") sampleEnvRace).fileOnDisk =
      some [ 1, 2 ] ∧
    (download_file Char.isAlphanum (fun _ => "d") sampleEnvRace).terminal =
      Terminal.failed := by
  refine ⟨⟨by decide, by decide⟩, by decide, by decide⟩

end MediafireSpec
